import Mathlib

/-!
Verification development for the mrvahepc database selector
(`src/mrvahepc/db_selector_ui.py`).

The selector filters a read-only SQLite table `metadata` through
per-column exact-match dropdowns and regex entry boxes, displays the
matching rows, and exports the selected repositories in two JSON
shapes.  This file gives a shallow embedding of that filter / query /
export pipeline and proves the specified properties about it.

Modelling conventions:
* a SQLite cell is `Option String` (`none` is SQL NULL; integer cells
  such as `db_file_size` are represented by their textual form, which
  is what the regex machinery sees via Python's `str()`);
* Python's `re` module is an external collaborator: it is abstracted
  as a function `ReCompile` mapping a pattern to `some` matcher
  (`re.compile` succeeded; the matcher is `re.search` with
  `re.IGNORECASE`) or `none` (`re.error`).  `miniRe` below is a
  concrete instance of that interface covering literal patterns with
  an optional leading anchor, used to evaluate concrete examples;
* SQLite's `ORDER BY` ascending with the default BINARY collation is
  code-point lexicographic comparison with NULLs first, embedded by
  `lexLe` / `sqlValLe`.
-/

/-- The filterable columns of the `metadata` table, in the order of
`DatabaseSelector.columns`. -/
inductive Column where
  | git_branch
  | git_commit_id
  | git_owner
  | git_repo
  | ingestion_datetime_utc
  | primary_language
  | result_url
  | tool_name
  | tool_version
  | projname
  | db_file_size
  deriving DecidableEq, Repr

/-- `self.columns` from `DatabaseSelector.__init__`. -/
def columns : List Column :=
  [Column.git_branch, Column.git_commit_id, Column.git_owner, Column.git_repo,
   Column.ingestion_datetime_utc, Column.primary_language, Column.result_url,
   Column.tool_name, Column.tool_version, Column.projname, Column.db_file_size]

/-- One row of the `metadata` table; every cell may be NULL. -/
structure Row where
  git_branch : Option String
  git_commit_id : Option String
  git_owner : Option String
  git_repo : Option String
  ingestion_datetime_utc : Option String
  primary_language : Option String
  result_url : Option String
  tool_name : Option String
  tool_version : Option String
  projname : Option String
  db_file_size : Option String
  deriving DecidableEq, Repr

/-- Access a row's cell by column name. -/
def Row.get (r : Row) : Column → Option String
  | Column.git_branch => r.git_branch
  | Column.git_commit_id => r.git_commit_id
  | Column.git_owner => r.git_owner
  | Column.git_repo => r.git_repo
  | Column.ingestion_datetime_utc => r.ingestion_datetime_utc
  | Column.primary_language => r.primary_language
  | Column.result_url => r.result_url
  | Column.tool_name => r.tool_name
  | Column.tool_version => r.tool_version
  | Column.projname => r.projname
  | Column.db_file_size => r.db_file_size

/-- Abstraction of Python's `re`: `compile p = some m` means pattern
`p` compiles and `m t` decides `re.search(p, t, re.IGNORECASE) is not
None`; `compile p = none` means `re.compile`/`re.search` raises
`re.error` on `p`. -/
def ReCompile : Type := String → Option (String → Bool)

/-- The placeholder text installed in empty regex entry boxes. -/
def placeholderText : String := "regex filter..."

/-- The values of the per-column Tk variables: `dropdown_vars` and
`regex_vars` (raw strings, before any stripping). -/
structure FilterState where
  dropdown : Column → String
  regex : Column → String

/-- The custom SQL `REGEXP` function registered by
`_setup_regexp_function`: NULL text never matches, and a pattern that
fails to compile matches nothing. -/
def sqlRegexp (compile : ReCompile) (pattern : String) (text : Option String) : Bool :=
  match text with
  | none => false
  | some t =>
    match compile pattern with
    | none => false
    | some m => m t

/-- One `WHERE` condition produced by `_update_results`: either
`column = ?` or `column REGEXP ?`. -/
inductive Cond where
  | eq (c : Column) (v : String)
  | regexp (c : Column) (p : String)
  deriving DecidableEq, Repr

/-- The whitespace characters Python's `str.strip()` removes (ASCII
fragment). -/
def isSpaceCh (c : Char) : Bool :=
  c == ' ' || c == '\t' || c == '\n' || c == '\r' || c == '\x0b' || c == '\x0c'

/-- Python's `str.strip()`: drop leading and trailing whitespace. -/
def pyStrip (s : String) : String :=
  String.mk (((s.data.dropWhile isSpaceCh).reverse.dropWhile isSpaceCh).reverse)

/-- The per-column condition selection of `_update_results`: strip the
dropdown and regex texts, treat the placeholder as empty, then prefer
the exact match, else the regex, else no condition. -/
def activeCond (c : Column) (dropdownRaw regexRaw : String) : Option Cond :=
  let d := pyStrip dropdownRaw
  let r0 := pyStrip regexRaw
  let r := if r0 = placeholderText then "" else r0
  if d ≠ "" then some (Cond.eq c d)
  else if r ≠ "" then some (Cond.regexp c r)
  else none

/-- The condition `_update_results` derives for one column of the
current filter state. -/
def conditionFor (fs : FilterState) (c : Column) : Option Cond :=
  activeCond c (fs.dropdown c) (fs.regex c)

/-- The full `WHERE` clause: the active conditions of all columns, in
column order, combined with AND. -/
def whereConds (fs : FilterState) : List Cond :=
  columns.filterMap (conditionFor fs)

/-- SQLite evaluation of one condition on one row: `column = ?` is
case-sensitive equality (NULL compares unequal to any string), and
`column REGEXP ?` calls the registered `regexp` function. -/
def evalCond (compile : ReCompile) (row : Row) : Cond → Bool
  | Cond.eq c v => row.get c == some v
  | Cond.regexp c p => sqlRegexp compile p (row.get c)

/-- A row satisfies the `WHERE` clause iff it satisfies every active
condition. -/
def rowMatches (compile : ReCompile) (fs : FilterState) (row : Row) : Bool :=
  (whereConds fs).all (evalCond compile row)

/-- Code-point lexicographic comparison of character lists: the order
SQLite's default BINARY collation induces on (UTF-8) text, and the
order Python's `sorted` uses on strings. -/
def lexLe : List Char → List Char → Bool
  | [], _ => true
  | _ :: _, [] => false
  | a :: as, b :: bs =>
    if a.toNat < b.toNat then true
    else if b.toNat < a.toNat then false
    else lexLe as bs


/-- String comparison as used for Python's `sorted` on repository
names. -/
def strLe (s t : String) : Prop := lexLe s.data t.data = true

instance : DecidableRel strLe :=
  fun s t => inferInstanceAs (Decidable (lexLe s.data t.data = true))


/-- Strict string order: ascending and duplicate-free in one relation. -/
def strLt (s t : String) : Prop := strLe s t ∧ s ≠ t

/-- SQLite `ORDER BY ... ASC` comparison on one cell: NULLs sort
first, non-NULL text by the BINARY collation. -/
def sqlValLe : Option String → Option String → Bool
  | none, _ => true
  | some _, none => false
  | some a, some b => lexLe a.data b.data

/-- Strict version of `sqlValLe`. -/
def sqlValLt (v w : Option String) : Bool := sqlValLe v w && !(sqlValLe w v)

/-- The ordering `ORDER BY git_owner, git_repo, primary_language`
imposes on rows, stated the way the spec reads: strictly smaller
owner, or equal owner and strictly smaller repo, or equal owner and
repo and no larger primary language. -/
def tripleLe (x y : Row) : Prop :=
  sqlValLt x.git_owner y.git_owner = true ∨
    (x.git_owner = y.git_owner ∧
      (sqlValLt x.git_repo y.git_repo = true ∨
        (x.git_repo = y.git_repo ∧
          sqlValLe x.primary_language y.primary_language = true)))

/-- Executable comparison realising `tripleLe`, used as the sort key
of the query's `ORDER BY`. -/
def rowLeB (x y : Row) : Bool :=
  if sqlValLt x.git_owner y.git_owner then true
  else if sqlValLt y.git_owner x.git_owner then false
  else if sqlValLt x.git_repo y.git_repo then true
  else if sqlValLt y.git_repo x.git_repo then false
  else sqlValLe x.primary_language y.primary_language

/-- The row order as a relation. -/
def rowLe (x y : Row) : Prop := rowLeB x y = true

instance : DecidableRel rowLe :=
  fun x y => inferInstanceAs (Decidable (rowLeB x y = true))

/-- The query `_update_results` executes: `SELECT * FROM metadata
[WHERE ...] ORDER BY git_owner, git_repo, primary_language`, with the
`WHERE` clause built from the filter state and evaluated with the
registered `REGEXP` function. -/
def queryResults (compile : ReCompile) (fs : FilterState) (db : List Row) : List Row :=
  List.insertionSort rowLe (db.filter (rowMatches compile fs))

/-- The candidate list `_update_dropdown_from_regex` computes for one
column: the always-present empty choice, followed by the full value
list (when the regex box is empty, still holds the placeholder, or
fails to compile) or the regex-filtered value list (when it
compiles). -/
def filteredValues (compile : ReCompile) (allVals : List String) (regexRaw : String) : List String :=
  let t := pyStrip regexRaw
  if t = "" ∨ t = placeholderText then "" :: allVals
  else
    match compile t with
    | some m => "" :: allVals.filter m
    | none => "" :: allVals

/-- The selector's mutable UI state relevant to filtering: the full
per-column value lists (`all_values`) and the per-column dropdown and
regex text variables. -/
structure UIState where
  allValues : Column → List String
  dropdown : Column → String
  regex : Column → String

/-- The filter state the query builder reads off the UI state. -/
def UIState.fs (st : UIState) : FilterState :=
  { dropdown := st.dropdown, regex := st.regex }

/-- `_update_dropdown_from_regex`: for every column, recompute the
candidate list from the regex box and clear the selection if it is no
longer among the candidates. -/
def updateDropdownFromRegex (compile : ReCompile) (st : UIState) : UIState :=
  { st with
    dropdown := fun c =>
      if st.dropdown c ∈ filteredValues compile (st.allValues c) (st.regex c) then
        st.dropdown c
      else "" }

/-- Write one dropdown variable (the edit a dropdown selection makes
before its trace fires). -/
def setDropdown (st : UIState) (c : Column) (v : String) : UIState :=
  { st with dropdown := Function.update st.dropdown c v }

/-- Write one regex variable (the edit a regex keystroke makes before
its trace fires). -/
def setRegex (st : UIState) (c : Column) (p : String) : UIState :=
  { st with regex := Function.update st.regex c p }

/-- `_on_filter_change`: a dropdown edit followed by
`_update_dropdown_from_regex` (the query rerun is `queryResults` of
the resulting state). -/
def onFilterChange (compile : ReCompile) (st : UIState) (c : Column) (v : String) : UIState :=
  updateDropdownFromRegex compile (setDropdown st c v)

/-- `_on_regex_change`: a regex edit followed by
`_update_dropdown_from_regex`. -/
def onRegexChange (compile : ReCompile) (st : UIState) (c : Column) (p : String) : UIState :=
  updateDropdownFromRegex compile (setRegex st c p)

/-- `_clear_filters`: every dropdown variable set to the empty string,
every regex box reset to the placeholder, then
`_update_dropdown_from_regex`. -/
def clearFilters (compile : ReCompile) (st : UIState) : UIState :=
  updateDropdownFromRegex compile
    { st with dropdown := fun _ => "", regex := fun _ => placeholderText }

/-- `_populate_dropdowns` for one column: `SELECT DISTINCT {column}
FROM metadata ORDER BY {column}` with the NULL row dropped, i.e. the
distinct non-NULL values in ascending order. -/
def populateColumn (db : List Row) (c : Column) : List String :=
  List.insertionSort strLe (db.filterMap (fun r => r.get c)).dedup

/-- Python truthiness of a text cell: NULL and the empty string are
falsy. -/
def truthy : Option String → Bool
  | none => false
  | some s => !(s == "")

/-- The `"owner/repo"` string built for one result row. -/
def repoName (r : Row) : String :=
  r.git_owner.getD "" ++ "/" ++ r.git_repo.getD ""

/-- The accumulation step of `_get_repository_list`: keep the row's
`owner/repo` only when owner and repo are truthy and it is not
already present. -/
def repoStep (acc : List String) (r : Row) : List String :=
  if truthy r.git_owner && truthy r.git_repo then
    if repoName r ∈ acc then acc else acc ++ [repoName r]
  else acc

/-- `_get_repository_list`: collect the distinct `owner/repo` strings
of the current results, then sort them ascending. -/
def repoList (results : List Row) : List String :=
  List.insertionSort strLe (results.foldl repoStep [])

/-- The GH-MRVA export document (Format A): the fixed envelope around
the repository list. -/
structure GhMrvaDoc where
  mirvaList : List String
  deriving DecidableEq, Repr

/-- One named repository list inside the VS Code export. -/
structure RepoListEntry where
  name : String
  repositories : List String
  deriving DecidableEq, Repr

/-- The `variantAnalysis` object of the VS Code export. -/
structure VariantAnalysis where
  repositoryLists : List RepoListEntry
  owners : List String
  repositories : List String
  deriving DecidableEq, Repr

/-- The `databases` object of the VS Code export. -/
structure VSCodeDatabases where
  variantAnalysis : VariantAnalysis
  deriving DecidableEq, Repr

/-- The `selected` object of the VS Code export. -/
structure VSCodeSelected where
  kind : String
  listName : String
  deriving DecidableEq, Repr

/-- The VS Code export document (Format B). -/
structure VSCodeDoc where
  version : Nat
  databases : VSCodeDatabases
  selected : VSCodeSelected
  deriving DecidableEq, Repr

/-- The fixed Format B envelope around a repository list, as built in
`_export_vscode`. -/
def vscodeDoc (repositories : List String) : VSCodeDoc :=
  { version := 1
    databases :=
      { variantAnalysis :=
        { repositoryLists := [{ name := "mirva-list", repositories := repositories }]
          owners := []
          repositories := [] } }
    selected := { kind := "variantAnalysisUserDefinedList", listName := "mirva-list" } }

/-- The warning text of the empty-result message box shown by both
export handlers. -/
def noResultsWarning : String := "No databases to export. Please apply filters first."

/-- `_export_gh_mrva`: warn and abort on an empty result set,
otherwise produce the Format A document. -/
def exportGhMrva (results : List Row) : Except String GhMrvaDoc :=
  if results.isEmpty then Except.error noResultsWarning
  else Except.ok { mirvaList := repoList results }

/-- `_export_vscode`: warn and abort on an empty result set, otherwise
produce the Format B document. -/
def exportVscode (results : List Row) : Except String VSCodeDoc :=
  if results.isEmpty then Except.error noResultsWarning
  else Except.ok (vscodeDoc (repoList results))

/-- The regex metacharacters `miniRe` refuses to interpret. -/
def reMeta : List Char :=
  ['\\', '.', '^', '$', '*', '+', '?', '[', ']', '(', ')', '|', '\x7b', '\x7d']

/-- A pattern character `miniRe` treats literally. -/
def plainChar (c : Char) : Bool := !(reMeta.contains c)

/-- Case-insensitive prefix test on character lists. -/
def startsWithCI : List Char → List Char → Bool
  | [], _ => true
  | _ :: _, [] => false
  | p :: ps, c :: cs => (p.toLower == c.toLower) && startsWithCI ps cs

/-- Case-insensitive substring test on character lists. -/
def containsCI (pat : List Char) : List Char → Bool
  | [] => startsWithCI pat []
  | c :: cs => startsWithCI pat (c :: cs) || containsCI pat cs

/-- Modelled from the spec: Python's `re` module is an external
library, so this is a concrete `ReCompile` instance covering the
literal fragment of its pattern language, with an optional leading
`^` anchor.  On that fragment `re.search(p, t, re.IGNORECASE)` is a
case-insensitive prefix (anchored) or substring (unanchored) test;
every pattern containing another metacharacter is rejected with
`none`, exercising the `re.error` paths. -/
def miniRe : ReCompile := fun p =>
  match p.data with
  | '^' :: rest =>
    if rest.all plainChar && !rest.isEmpty then
      some (fun s => startsWithCI rest s.data)
    else none
  | cs =>
    if cs.all plainChar && !cs.isEmpty then
      some (fun s => containsCI cs s.data)
    else none

/-- The candidate values of the spec's `primary_language` example. -/
def langValues : List String := ["C", "Cpp", "Java", "python"]

/-- First row of the spec's export example:
`{owner:"acme", repo:"x", lang:"cpp"}`. -/
def rowAcmeCpp : Row :=
  { git_branch := none, git_commit_id := none, git_owner := some "acme",
    git_repo := some "x", ingestion_datetime_utc := none,
    primary_language := some "cpp", result_url := none, tool_name := none,
    tool_version := none, projname := none, db_file_size := none }

/-- Second row of the spec's export example:
`{owner:"acme", repo:"x", lang:"java"}`. -/
def rowAcmeJava : Row :=
  { rowAcmeCpp with primary_language := some "java" }

/-- The two-row result set of the spec's export example. -/
def exampleResults : List Row := [rowAcmeCpp, rowAcmeJava]

/-- A row whose owner is NULL and whose repo is empty (both falsy). -/
def rowNoOwner : Row :=
  { rowAcmeCpp with git_owner := none, git_repo := some "" }

/-- A small concrete UI state used to evaluate the invariants: the
`primary_language` dropdown holds `Java` and no regex is set. -/
def exampleState : UIState :=
  { allValues := fun c =>
      match c with
      | Column.primary_language => langValues
      | _ => []
    dropdown := fun c =>
      match c with
      | Column.primary_language => "Java"
      | _ => ""
    regex := fun _ => "" }

/-- The spec's reading of the regex constraint actually sent to the
query: the stripped regex text, with the placeholder treated as
empty. -/
def normRegex (fs : FilterState) (c : Column) : String :=
  if pyStrip (fs.regex c) = placeholderText then "" else pyStrip (fs.regex c)

/-- The spec's per-attribute condition (C1, stated from the spec's
words): an exact selection demands case-sensitive equality and takes
precedence over the regex; otherwise a non-empty regex pattern
demands a case-insensitive regex match on the stored text, which a
NULL cell never satisfies; otherwise the attribute is
unconstrained. -/
def specAttrCond (compile : ReCompile) (fs : FilterState) (row : Row) (c : Column) : Prop :=
  if pyStrip (fs.dropdown c) ≠ "" then
    row.get c = some (pyStrip (fs.dropdown c))
  else if normRegex fs c ≠ "" then
    ∃ t m, row.get c = some t ∧ compile (normRegex fs c) = some m ∧ m t = true
  else True

theorem lexLe_cons_iff {a b : Char} {as bs : List Char} :
    lexLe (a :: as) (b :: bs) = true ↔
      a.toNat < b.toNat ∨ (a.toNat = b.toNat ∧ lexLe as bs = true) := by
  by_cases h1 : a.toNat < b.toNat
  · simp [lexLe, h1]
  · by_cases h2 : b.toNat < a.toNat
    · simp [lexLe, h1, h2]
      omega
    · have he : a.toNat = b.toNat := by omega
      simp [lexLe, h1, h2, he]

theorem lexLe_refl : ∀ l : List Char, lexLe l l = true
  | [] => rfl
  | a :: as => by
    rw [lexLe_cons_iff]
    exact Or.inr ⟨rfl, lexLe_refl as⟩

theorem lexLe_total : ∀ a b : List Char, lexLe a b = true ∨ lexLe b a = true
  | [], _ => Or.inl rfl
  | _ :: _, [] => Or.inr rfl
  | a :: as, b :: bs => by
    rw [lexLe_cons_iff, lexLe_cons_iff]
    rcases Nat.lt_trichotomy a.toNat b.toNat with h | h | h
    · exact Or.inl (Or.inl h)
    · rcases lexLe_total as bs with ih | ih
      · exact Or.inl (Or.inr ⟨h, ih⟩)
      · exact Or.inr (Or.inr ⟨h.symm, ih⟩)
    · exact Or.inr (Or.inl h)

theorem lexLe_trans : ∀ a b c : List Char,
    lexLe a b = true → lexLe b c = true → lexLe a c = true
  | [], _, _, _, _ => rfl
  | _ :: _, [], _, h, _ => by simp [lexLe] at h
  | _ :: _, _ :: _, [], _, h => by simp [lexLe] at h
  | a :: as, b :: bs, c :: cs, h1, h2 => by
    rw [lexLe_cons_iff] at h1 h2 ⊢
    rcases h1 with h1 | ⟨h1e, h1r⟩
    · rcases h2 with h2 | ⟨h2e, _⟩
      · exact Or.inl (h1.trans h2)
      · exact Or.inl (h2e ▸ h1)
    · rcases h2 with h2 | ⟨h2e, h2r⟩
      · exact Or.inl (h1e ▸ h2)
      · exact Or.inr ⟨h1e.trans h2e, lexLe_trans as bs cs h1r h2r⟩

theorem lexLe_antisymm : ∀ a b : List Char,
    lexLe a b = true → lexLe b a = true → a = b
  | [], [], _, _ => rfl
  | [], _ :: _, _, h => by simp [lexLe] at h
  | _ :: _, [], h, _ => by simp [lexLe] at h
  | a :: as, b :: bs, h1, h2 => by
    rw [lexLe_cons_iff] at h1 h2
    rcases h1 with h1 | ⟨h1e, h1r⟩
    · rcases h2 with h2 | ⟨h2e, _⟩
      · omega
      · omega
    · rcases h2 with h2 | ⟨h2e, h2r⟩
      · omega
      · have hc : a = b := Char.ext (UInt32.toNat.inj h1e)
        have hr : as = bs := lexLe_antisymm as bs h1r h2r
        rw [hc, hr]
theorem strLe_isTotal : IsTotal String strLe := ⟨fun s t => lexLe_total s.data t.data⟩

theorem strLe_isTrans : IsTrans String strLe := ⟨fun s t u => lexLe_trans s.data t.data u.data⟩

theorem strLe_antisymm {s t : String} (h1 : strLe s t) (h2 : strLe t s) : s = t :=
  congrArg String.mk (lexLe_antisymm s.data t.data h1 h2)
theorem sqlValLe_refl : ∀ v : Option String, sqlValLe v v = true
  | none => rfl
  | some a => lexLe_refl a.data

theorem sqlValLe_total : ∀ v w : Option String, sqlValLe v w = true ∨ sqlValLe w v = true
  | none, _ => Or.inl rfl
  | some _, none => Or.inr rfl
  | some a, some b => lexLe_total a.data b.data

theorem sqlValLe_trans : ∀ u v w : Option String,
    sqlValLe u v = true → sqlValLe v w = true → sqlValLe u w = true
  | none, _, _, _, _ => rfl
  | some _, none, _, h, _ => by simp [sqlValLe] at h
  | some _, some _, none, _, h => by simp [sqlValLe] at h
  | some a, some b, some c, h1, h2 => lexLe_trans a.data b.data c.data h1 h2

theorem sqlValLe_antisymm : ∀ v w : Option String,
    sqlValLe v w = true → sqlValLe w v = true → v = w
  | none, none, _, _ => rfl
  | none, some _, _, h => by simp [sqlValLe] at h
  | some _, none, h, _ => by simp [sqlValLe] at h
  | some a, some b, h1, h2 =>
    congrArg some (congrArg String.mk (lexLe_antisymm a.data b.data h1 h2))

theorem sqlVal_eq_of_not_lt {v w : Option String}
    (h1 : ¬ sqlValLt v w = true) (h2 : ¬ sqlValLt w v = true) : v = w := by
  rcases sqlValLe_total v w with h | h
  · rcases Bool.eq_false_or_eq_true (sqlValLe w v) with h' | h'
    · exact sqlValLe_antisymm v w h h'
    · exact absurd (by simp [sqlValLt, h, h']) h1
  · rcases Bool.eq_false_or_eq_true (sqlValLe v w) with h' | h'
    · exact sqlValLe_antisymm v w h' h
    · exact absurd (by simp [sqlValLt, h, h']) h2

theorem sqlValLt_irrefl (v : Option String) : sqlValLt v v = false := by
  simp [sqlValLt, sqlValLe_refl v]

theorem sqlValLt_trans {u v w : Option String}
    (h1 : sqlValLt u v = true) (h2 : sqlValLt v w = true) : sqlValLt u w = true := by
  simp only [sqlValLt, Bool.and_eq_true, Bool.not_eq_true'] at h1 h2 ⊢
  refine ⟨sqlValLe_trans u v w h1.1 h2.1, ?_⟩
  rcases Bool.eq_false_or_eq_true (sqlValLe w u) with h | h
  · have : sqlValLe v u = true := sqlValLe_trans v w u h2.1 h
    rw [this] at h1
    exact absurd h1.2 (by simp)
  · exact h

theorem rowLeB_iff {x y : Row} : rowLeB x y = true ↔ tripleLe x y := by
  unfold rowLeB tripleLe
  by_cases h1 : sqlValLt x.git_owner y.git_owner = true
  · simp [h1]
  · by_cases h2 : sqlValLt y.git_owner x.git_owner = true
    · have hne : ¬ x.git_owner = y.git_owner := by
        intro he
        rw [he] at h2
        simp [sqlValLt_irrefl] at h2
      simp [h1, h2, hne]
    · have he : x.git_owner = y.git_owner := sqlVal_eq_of_not_lt h1 h2
      by_cases h3 : sqlValLt x.git_repo y.git_repo = true
      · simp [h1, h2, h3, he]
      · by_cases h4 : sqlValLt y.git_repo x.git_repo = true
        · have hne : ¬ x.git_repo = y.git_repo := by
            intro heq
            rw [heq] at h4
            simp [sqlValLt_irrefl] at h4
          simp [h1, h2, h3, h4, he, hne]
        · have he2 : x.git_repo = y.git_repo := sqlVal_eq_of_not_lt h3 h4
          simp [h1, h2, h3, h4, he, he2, sqlValLt_irrefl]

theorem tripleLe_total (x y : Row) : tripleLe x y ∨ tripleLe y x := by
  by_cases h1 : sqlValLt x.git_owner y.git_owner = true
  · exact Or.inl (Or.inl h1)
  · by_cases h2 : sqlValLt y.git_owner x.git_owner = true
    · exact Or.inr (Or.inl h2)
    · have he := sqlVal_eq_of_not_lt h1 h2
      by_cases h3 : sqlValLt x.git_repo y.git_repo = true
      · exact Or.inl (Or.inr ⟨he, Or.inl h3⟩)
      · by_cases h4 : sqlValLt y.git_repo x.git_repo = true
        · exact Or.inr (Or.inr ⟨he.symm, Or.inl h4⟩)
        · have he2 := sqlVal_eq_of_not_lt h3 h4
          rcases sqlValLe_total (x.primary_language) (y.primary_language) with h | h
          · exact Or.inl (Or.inr ⟨he, Or.inr ⟨he2, h⟩⟩)
          · exact Or.inr (Or.inr ⟨he.symm, Or.inr ⟨he2.symm, h⟩⟩)

theorem tripleLe_trans {x y z : Row}
    (hxy : tripleLe x y) (hyz : tripleLe y z) : tripleLe x z := by
  rcases hxy with h1 | ⟨e1, hxy⟩
  · rcases hyz with h2 | ⟨e2, _⟩
    · exact Or.inl (sqlValLt_trans h1 h2)
    · exact Or.inl (by rw [← e2]; exact h1)
  · rcases hyz with h2 | ⟨e2, hyz⟩
    · exact Or.inl (by rw [e1]; exact h2)
    · refine Or.inr ⟨e1.trans e2, ?_⟩
      rcases hxy with h3 | ⟨e3, hxy⟩
      · rcases hyz with h4 | ⟨e4, _⟩
        · exact Or.inl (sqlValLt_trans h3 h4)
        · exact Or.inl (by rw [← e4]; exact h3)
      · rcases hyz with h4 | ⟨e4, hyz⟩
        · exact Or.inl (by rw [e3]; exact h4)
        · exact Or.inr ⟨e3.trans e4,
            sqlValLe_trans _ (y.primary_language) _ hxy hyz⟩

theorem rowLe_isTotal : IsTotal Row rowLe :=
  ⟨fun x y => by
    rcases tripleLe_total x y with h | h
    · exact Or.inl (rowLeB_iff.mpr h)
    · exact Or.inr (rowLeB_iff.mpr h)⟩

theorem rowLe_isTrans : IsTrans Row rowLe :=
  ⟨fun _ _ _ h1 h2 =>
    rowLeB_iff.mpr (tripleLe_trans (rowLeB_iff.mp h1) (rowLeB_iff.mp h2))⟩

theorem mem_empty_filteredValues (compile : ReCompile) (vals : List String) (p : String) :
    "" ∈ filteredValues compile vals p := by
  unfold filteredValues
  by_cases h : pyStrip p = "" ∨ pyStrip p = placeholderText
  · simp [h]
  · simp only [h, if_false]
    split <;> exact List.mem_cons_self _ _

theorem updateDropdown_spec (compile : ReCompile) (st : UIState) (c : Column) :
    (updateDropdownFromRegex compile st).dropdown c ∈
      filteredValues compile (st.allValues c) (st.regex c) ∧
    (st.dropdown c ∉ filteredValues compile (st.allValues c) (st.regex c) →
      (updateDropdownFromRegex compile st).dropdown c = "") := by
  unfold updateDropdownFromRegex
  by_cases h : st.dropdown c ∈ filteredValues compile (st.allValues c) (st.regex c)
  · exact ⟨by simp [h], fun hn => absurd h hn⟩
  · exact ⟨by simp [h, mem_empty_filteredValues], fun _ => by simp [h]⟩

theorem conditionFor_eq (fs : FilterState) (c : Column) :
    conditionFor fs c =
      if pyStrip (fs.dropdown c) ≠ "" then some (Cond.eq c (pyStrip (fs.dropdown c)))
      else if normRegex fs c ≠ "" then some (Cond.regexp c (normRegex fs c))
      else none := rfl

theorem evalCond_regexp (compile : ReCompile) (row : Row) (c : Column) (p : String) :
    evalCond compile row (Cond.regexp c p) = sqlRegexp compile p (row.get c) := rfl

theorem evalCond_eqCond (compile : ReCompile) (row : Row) (c : Column) (v : String) :
    evalCond compile row (Cond.eq c v) = (row.get c == some v) := rfl

theorem cond_iff (compile : ReCompile) (fs : FilterState) (row : Row) (c : Column) :
    (∀ cond, conditionFor fs c = some cond → evalCond compile row cond = true) ↔
      specAttrCond compile fs row c := by
  rw [conditionFor_eq]
  unfold specAttrCond
  by_cases hd : pyStrip (fs.dropdown c) = ""
  · simp only [hd, ne_eq, not_true_eq_false, if_false, not_false_eq_true, if_true]
    by_cases hr : normRegex fs c = ""
    · simp [hr]
    · simp only [hr, ne_eq, not_false_eq_true, if_true]
      constructor
      · intro h
        have he := h (Cond.regexp c (normRegex fs c)) rfl
        rw [evalCond_regexp] at he
        cases hcell : row.get c with
        | none =>
          rw [hcell] at he
          simp [sqlRegexp] at he
        | some t =>
          rw [hcell] at he
          cases hm : compile (normRegex fs c) with
          | none => simp [sqlRegexp, hm] at he
          | some m =>
            simp only [sqlRegexp, hm] at he
            exact ⟨t, m, rfl, rfl, he⟩
      · rintro ⟨t, m, hcell, hm, hmt⟩ cond hcond
        obtain rfl : cond = Cond.regexp c (normRegex fs c) := (Option.some.inj hcond).symm
        rw [evalCond_regexp, hcell]
        simp [sqlRegexp, hm, hmt]
  · simp only [hd, ne_eq, not_false_eq_true, if_true]
    constructor
    · intro h
      have he := h (Cond.eq c (pyStrip (fs.dropdown c))) rfl
      rw [evalCond_eqCond] at he
      exact eq_of_beq he
    · rintro hcell cond hcond
      obtain rfl : cond = Cond.eq c (pyStrip (fs.dropdown c)) := (Option.some.inj hcond).symm
      rw [evalCond_eqCond]
      exact beq_iff_eq.mpr hcell

theorem rowMatches_iff (compile : ReCompile) (fs : FilterState) (row : Row) :
    rowMatches compile fs row = true ↔ ∀ c ∈ columns, specAttrCond compile fs row c := by
  unfold rowMatches whereConds
  rw [List.all_eq_true]
  constructor
  · intro h c hc
    rw [← cond_iff compile fs row c]
    intro cond hcond
    exact h cond (List.mem_filterMap.mpr ⟨c, hc, hcond⟩)
  · intro h cond hcond
    rcases List.mem_filterMap.mp hcond with ⟨c, hc, hcf⟩
    exact (cond_iff compile fs row c).mpr (h c hc) cond hcf

theorem mem_repoStep {acc : List String} {r : Row} {s : String} :
    s ∈ repoStep acc r ↔
      s ∈ acc ∨ (truthy r.git_owner = true ∧ truthy r.git_repo = true ∧ s = repoName r) := by
  by_cases h1 : truthy r.git_owner = true
  · by_cases h2 : truthy r.git_repo = true
    · by_cases hm : repoName r ∈ acc
      · simp only [repoStep, h1, h2, Bool.and_self, if_true, hm]
        constructor
        · exact Or.inl
        · rintro (h | ⟨_, _, rfl⟩)
          · exact h
          · exact hm
      · simp only [repoStep, h1, h2, Bool.and_self, if_true, hm, if_false,
          List.mem_append, List.mem_singleton]
        tauto
    · simp only [repoStep, h1, h2]
      simp [h2]
  · simp only [repoStep, h1]
    simp [h1]

theorem mem_foldl_repoStep : ∀ (rows : List Row) (acc : List String) (s : String),
    s ∈ rows.foldl repoStep acc ↔
      s ∈ acc ∨ ∃ r ∈ rows, truthy r.git_owner = true ∧ truthy r.git_repo = true ∧
        s = repoName r
  | [], acc, s => by simp
  | r :: rs, acc, s => by
    rw [List.foldl_cons, mem_foldl_repoStep rs (repoStep acc r) s]
    rw [mem_repoStep]
    simp only [List.mem_cons]
    constructor
    · rintro ((h | h) | ⟨r', hr', h⟩)
      · exact Or.inl h
      · exact Or.inr ⟨r, Or.inl rfl, h⟩
      · exact Or.inr ⟨r', Or.inr hr', h⟩
    · rintro (h | ⟨r', hr' | hr', h⟩)
      · exact Or.inl (Or.inl h)
      · exact Or.inl (Or.inr (hr' ▸ h))
      · exact Or.inr ⟨r', hr', h⟩

theorem nodup_repoStep {acc : List String} {r : Row} (h : acc.Nodup) :
    (repoStep acc r).Nodup := by
  unfold repoStep
  split
  · split
    · exact h
    · rename_i hm
      rw [List.nodup_append]
      exact ⟨h, List.nodup_singleton _,
        fun a ha hb => hm (by rwa [List.mem_singleton.mp hb] at ha)⟩
  · exact h

theorem nodup_foldl_repoStep : ∀ (rows : List Row) (acc : List String),
    acc.Nodup → (rows.foldl repoStep acc).Nodup
  | [], _, h => h
  | r :: rs, acc, h => by
    rw [List.foldl_cons]
    exact nodup_foldl_repoStep rs (repoStep acc r) (nodup_repoStep h)

theorem sorted_strLt_of_le_nodup {l : List String}
    (hs : List.Sorted strLe l) (hn : l.Nodup) : List.Sorted strLt l :=
  (hs.and hn).imp fun h => ⟨h.1, h.2⟩

theorem repoList_sorted (results : List Row) : List.Sorted strLt (repoList results) := by
  unfold repoList
  haveI := strLe_isTotal
  haveI := strLe_isTrans
  refine sorted_strLt_of_le_nodup (List.sorted_insertionSort strLe _) ?_
  exact (List.perm_insertionSort strLe _).nodup_iff.mpr
    (nodup_foldl_repoStep _ [] List.nodup_nil)

theorem mem_repoList {results : List Row} {s : String} :
    s ∈ repoList results ↔
      ∃ r ∈ results, truthy r.git_owner = true ∧ truthy r.git_repo = true ∧
        s = repoName r := by
  unfold repoList
  rw [List.mem_insertionSort, mem_foldl_repoStep]
  simp

theorem activeCond_placeholder (c : Column) (d : String) :
    activeCond c d placeholderText = activeCond c d "" := by
  have hp : pyStrip placeholderText = placeholderText := by decide
  have hq : pyStrip "" = "" := by decide
  unfold activeCond
  rw [hp, hq]
  simp [placeholderText]

/-- C1: for every filter state and catalog, the rows returned by the
query `_update_results` builds and executes are exactly the catalog
rows that satisfy every attribute's active condition: a selected
exact-match value demands case-sensitive equality (taking precedence
over any regex on the same attribute); otherwise a non-empty regex
pattern demands a case-insensitive regex match that a NULL cell never
satisfies; attributes with neither are unconstrained; all conditions
are combined with AND. -/
theorem c1_query_matches_spec_conditions (compile : ReCompile) (fs : FilterState)
    (db : List Row) (row : Row) :
    row ∈ queryResults compile fs db ↔
      row ∈ db ∧ ∀ c ∈ columns, specAttrCond compile fs row c := by
  unfold queryResults
  rw [List.mem_insertionSort, List.mem_filter, rowMatches_iff]

/-- C2: a regex pattern that fails to compile degrades gracefully:
the candidate list is the full unfiltered value list, and the query's
`REGEXP` condition is false on every cell, so it matches no row. -/
theorem c2_invalid_regex_degrades (compile : ReCompile) (p : String)
    (vals : List String) (c : Column) (row : Row) (t : Option String)
    (h : compile (pyStrip p) = none) :
    filteredValues compile vals p = "" :: vals ∧
    sqlRegexp compile (pyStrip p) t = false ∧
    evalCond compile row (Cond.regexp c (pyStrip p)) = false := by
  refine ⟨?_, ?_, ?_⟩
  · unfold filteredValues
    by_cases hb : pyStrip p = "" ∨ pyStrip p = placeholderText
    · simp [hb]
    · simp [hb, h]
  · cases t with
    | none => rfl
    | some s => simp [sqlRegexp, h]
  · rw [evalCond_regexp]
    cases hc : row.get c with
    | none => rfl
    | some s => simp [sqlRegexp, h]

theorem c2_invalid_regex_degrades_witness :
    filteredValues miniRe ["a"] "(" = ["", "a"] ∧
    sqlRegexp miniRe (pyStrip "(") (some "abc") = false ∧
    evalCond miniRe rowAcmeCpp (Cond.regexp Column.git_owner (pyStrip "(")) = false :=
  c2_invalid_regex_degrades miniRe "(" ["a"] Column.git_owner rowAcmeCpp (some "abc") rfl

/-- C3: after a dropdown change, a regex change, or clear-all, every
attribute's selection lies in that attribute's current regex-filtered
candidate list, and a regex change that removes the previous selection
from the candidate list clears the selection to the empty choice. -/
theorem c3_selection_within_candidates (compile : ReCompile) (st : UIState)
    (c e : Column) (v p : String) :
    ((onFilterChange compile st c v).dropdown e ∈
        filteredValues compile ((onFilterChange compile st c v).allValues e)
          ((onFilterChange compile st c v).regex e)) ∧
    ((onRegexChange compile st c p).dropdown e ∈
        filteredValues compile ((onRegexChange compile st c p).allValues e)
          ((onRegexChange compile st c p).regex e)) ∧
    ((clearFilters compile st).dropdown e ∈
        filteredValues compile ((clearFilters compile st).allValues e)
          ((clearFilters compile st).regex e)) ∧
    (st.dropdown e ∉
        filteredValues compile (st.allValues e) (Function.update st.regex c p e) →
      (onRegexChange compile st c p).dropdown e = "") := by
  refine ⟨?_, ?_, ?_, ?_⟩
  · exact (updateDropdown_spec compile (setDropdown st c v) e).1
  · exact (updateDropdown_spec compile (setRegex st c p) e).1
  · exact (updateDropdown_spec compile
      { st with dropdown := fun _ => "", regex := fun _ => placeholderText } e).1
  · intro hn
    exact (updateDropdown_spec compile (setRegex st c p) e).2 hn

theorem c3_selection_within_candidates_witness :
    (onRegexChange miniRe exampleState Column.primary_language "^c").dropdown
      Column.primary_language = "" := by
  have h := c3_selection_within_candidates miniRe exampleState Column.primary_language
    Column.primary_language "Java" "^c"
  exact h.2.2.2 (by decide)

/-- C4: each attribute's full candidate set is the distinct non-NULL
catalog values in ascending order; a valid regex narrows the offered
list to exactly the matching subset, prefixed with the empty
no-constraint choice; and the spec's `^c` example evaluates to
`["", "C", "Cpp"]`. -/
theorem c4_candidate_lists (db : List Row) (c : Column) (v : String)
    (compile : ReCompile) (vals : List String) (p : String) (m : String → Bool) :
    List.Sorted strLt (populateColumn db c) ∧
    (v ∈ populateColumn db c ↔ ∃ r ∈ db, r.get c = some v) ∧
    (compile (pyStrip p) = some m → pyStrip p ≠ "" → pyStrip p ≠ placeholderText →
      filteredValues compile vals p = "" :: vals.filter m) ∧
    filteredValues miniRe langValues "^c" = ["", "C", "Cpp"] := by
  refine ⟨?_, ?_, ?_, by decide⟩
  · unfold populateColumn
    haveI := strLe_isTotal
    haveI := strLe_isTrans
    refine sorted_strLt_of_le_nodup (List.sorted_insertionSort strLe _) ?_
    exact (List.perm_insertionSort strLe _).nodup_iff.mpr (List.nodup_dedup _)
  · simp only [populateColumn, List.mem_insertionSort, List.mem_dedup, List.mem_filterMap]
  · intro hm h1 h2
    unfold filteredValues
    simp [h1, h2, hm]

theorem c4_candidate_lists_witness :
    filteredValues (fun q => some (fun s => containsCI q.data s.data)) ["ab", "zz"] "a" =
      ["", "ab"] := by
  have h := (c4_candidate_lists [] Column.git_owner ""
      (fun q => some (fun s => containsCI q.data s.data)) ["ab", "zz"] "a"
      (fun s => containsCI (pyStrip "a").data s.data)).2.2.1 rfl (by decide) (by decide)
  rw [h]
  decide

/-- C5: the exported repository list holds each `owner/repo` string
exactly once in ascending order, regardless of how many result rows
share the pair, and the spec's two-row example exports as
`{"mirva-list": ["acme/x"]}`. -/
theorem c5_repo_list_unique_sorted (results : List Row) (s : String) :
    List.Sorted strLt (repoList results) ∧
    (s ∈ repoList results ↔
      ∃ r ∈ results, truthy r.git_owner = true ∧ truthy r.git_repo = true ∧
        s = repoName r) ∧
    exportGhMrva exampleResults = Except.ok { mirvaList := ["acme/x"] } :=
  ⟨repoList_sorted results, mem_repoList, rfl⟩

/-- C6: whenever both exports produce documents for the same result
set, Format A's list and the list inside Format B's single named
repository list are the identical `repoList` value. -/
theorem c6_exports_embed_same_list (results : List Row) (a : GhMrvaDoc) (b : VSCodeDoc)
    (ha : exportGhMrva results = Except.ok a) (hb : exportVscode results = Except.ok b) :
    a.mirvaList = repoList results ∧
    b.databases.variantAnalysis.repositoryLists =
      [{ name := "mirva-list", repositories := a.mirvaList }] := by
  unfold exportGhMrva at ha
  unfold exportVscode at hb
  by_cases h : results.isEmpty = true
  · rw [if_pos h] at ha
    cases ha
  · rw [if_neg h] at ha hb
    obtain rfl : a = { mirvaList := repoList results } := (Except.ok.inj ha).symm
    obtain rfl : b = vscodeDoc (repoList results) := (Except.ok.inj hb).symm
    exact ⟨rfl, rfl⟩

theorem c6_exports_embed_same_list_witness :
    ({ mirvaList := ["acme/x"] } : GhMrvaDoc).mirvaList = repoList exampleResults ∧
    (vscodeDoc (repoList exampleResults)).databases.variantAnalysis.repositoryLists =
      [{ name := "mirva-list", repositories := ["acme/x"] }] :=
  c6_exports_embed_same_list exampleResults { mirvaList := ["acme/x"] }
    (vscodeDoc (repoList exampleResults)) rfl rfl

/-- C7: with an empty result set, both export handlers warn and abort
without producing a document. -/
theorem c7_empty_export_warns :
    exportGhMrva [] = Except.error noResultsWarning ∧
    exportVscode [] = Except.error noResultsWarning :=
  ⟨rfl, rfl⟩

/-- C8: every query result is sorted non-decreasingly by the triple
(git_owner, git_repo, primary_language), ascending and
case-sensitive. -/
theorem c8_results_sorted (compile : ReCompile) (fs : FilterState) (db : List Row) :
    List.Sorted tripleLe (queryResults compile fs db) := by
  unfold queryResults
  haveI := rowLe_isTotal
  haveI := rowLe_isTrans
  exact (List.sorted_insertionSort rowLe _).imp fun h => rowLeB_iff.mp h

/-- C9: rows with a NULL or empty owner or repo are silently omitted
from the repository list, so a non-empty result set of only such rows
passes the empty-result check and both exports succeed with an empty
repository list and no warning. -/
theorem c9_falsy_rows_omitted (rows : List Row) (hne : rows ≠ [])
    (hfalsy : ∀ r ∈ rows, ¬(truthy r.git_owner = true ∧ truthy r.git_repo = true)) :
    repoList rows = [] ∧
    exportGhMrva rows = Except.ok { mirvaList := [] } ∧
    exportVscode rows = Except.ok (vscodeDoc []) := by
  have hempty : repoList rows = [] := by
    cases hl : repoList rows with
    | nil => rfl
    | cons s ss =>
      have hs : s ∈ repoList rows := by
        rw [hl]
        exact List.mem_cons_self _ _
      rcases mem_repoList.mp hs with ⟨r, hr, h1, h2, _⟩
      exact absurd ⟨h1, h2⟩ (hfalsy r hr)
  have hne' : rows.isEmpty = false := by
    cases rows with
    | nil => exact absurd rfl hne
    | cons _ _ => rfl
  exact ⟨hempty, by simp [exportGhMrva, hne', hempty],
    by simp [exportVscode, hne', hempty]⟩

theorem c9_falsy_rows_omitted_witness :
    repoList [rowNoOwner] = [] ∧
    exportGhMrva [rowNoOwner] = Except.ok { mirvaList := [] } ∧
    exportVscode [rowNoOwner] = Except.ok (vscodeDoc []) :=
  c9_falsy_rows_omitted [rowNoOwner] (by decide) (by decide)

/-- C10: a regex field holding exactly the placeholder text imposes no
constraint: the candidate list is the full value list, the derived
condition is the one an empty regex field yields, and the query result
is unchanged when the placeholder is replaced by the empty string. -/
theorem c10_placeholder_is_no_constraint (compile : ReCompile) (vals : List String)
    (c : Column) (d : String) (fs : FilterState) (db : List Row) :
    filteredValues compile vals placeholderText = "" :: vals ∧
    activeCond c d placeholderText = activeCond c d "" ∧
    queryResults compile { fs with regex := Function.update fs.regex c placeholderText } db =
      queryResults compile { fs with regex := Function.update fs.regex c "" } db := by
  refine ⟨?_, activeCond_placeholder c d, ?_⟩
  · have hp : pyStrip placeholderText = placeholderText := by decide
    unfold filteredValues
    rw [hp]
    simp
  · have hcond : ∀ e, conditionFor { fs with regex := Function.update fs.regex c placeholderText } e =
        conditionFor { fs with regex := Function.update fs.regex c "" } e := by
      intro e
      by_cases hc : e = c
      · subst hc
        unfold conditionFor
        simp only [Function.update_same]
        exact activeCond_placeholder e (fs.dropdown e)
      · unfold conditionFor
        simp only [Function.update_noteq hc]
    have hwc : whereConds { fs with regex := Function.update fs.regex c placeholderText } =
        whereConds { fs with regex := Function.update fs.regex c "" } :=
      List.filterMap_congr fun e _ => hcond e
    have hrm : rowMatches compile { fs with regex := Function.update fs.regex c placeholderText } =
        rowMatches compile { fs with regex := Function.update fs.regex c "" } := by
      funext row
      unfold rowMatches
      rw [hwc]
    unfold queryResults
    rw [hrm]
